import Mathlib

/-!
Shallow embedding of the appointment scheduling core of the `potilastieto`
backend (`backend/app/services/appointments.py`, schemas in
`backend/app/schemas/appointment.py`, models in
`backend/app/models/appointment.py`).

Modelling conventions:
* instants (`datetime`) are integers counting seconds; `timedelta(minutes=m)`
  becomes `60 * m`, `timedelta(hours=8)` becomes `8 * 3600`,
  `timedelta(days=1)` becomes `86400`;
* `datetime.utcnow()` is an explicit `now : Int` argument of each operation;
* the SQL store is a `Store` of rows; the SQLAlchemy session is a `DbSession`
  carrying the committed store and the pending (uncommitted) store, with
  `session.commit()` copying pending into committed;
* Python exceptions become the `AppError` sum type; an operation returns
  `OpOutcome`, which carries the session state at the point of return.
-/

namespace Potilastieto

/-- A row of the `appointments` table (`app/models/appointment.py`). -/
structure Appointment where
  id : Int
  patient_id : Int
  provider_id : Int
  location : Option String
  service_type : Option String
  start_time : Int
  end_time : Int
  status : String
  notes : Option String
  created_by : Option Int
  cancelled_reason : Option String
  cancelled_at : Option Int
  created_at : Int
  updated_at : Int
deriving Repr, DecidableEq

/-- A row of the `appointment_status_history` table. -/
structure AppointmentStatusHistory where
  appointment_id : Int
  status : String
  changed_by : Option Int
  changed_at : Int
  note : Option String
deriving Repr, DecidableEq

/-- A row of the `audit_events` table, reduced to the fields the lifecycle
manager writes through `audit.record_event`. -/
structure AuditEvent where
  actor_id : Option Int
  action : String
  resource_id : Option String
  timestamp : Int
deriving Repr, DecidableEq

/-- The relational store: the two tables owned by the lifecycle manager, the
audit-event table, and the autoincrement counter backing `appointments.id`. -/
structure Store where
  appointments : List Appointment
  history : List AppointmentStatusHistory
  events : List AuditEvent
  nextId : Int
deriving Repr, DecidableEq

/-- A database session: `committed` is the durable state, `pending` the
session's working state (committed state plus uncommitted writes). -/
structure DbSession where
  committed : Store
  pending : Store
deriving Repr, DecidableEq

/-- `session.commit()`: the pending writes become durable. -/
def commit (sess : DbSession) : DbSession :=
  { committed := sess.pending, pending := sess.pending }

/-- Schema `AppointmentCreate`. -/
structure AppointmentCreate where
  patient_id : Int
  provider_id : Int
  service_type : Option String := none
  location : Option String := none
  start_time : Int
  end_time : Int
  notes : Option String := none
deriving Repr, DecidableEq

/-- Schema `AppointmentUpdate`: every field optional (absent = `none`).
The schema has no `provider_id` field. -/
structure AppointmentUpdate where
  service_type : Option String := none
  location : Option String := none
  start_time : Option Int := none
  end_time : Option Int := none
  notes : Option String := none
  status : Option String := none
  cancelled_reason : Option String := none
  notify_patient : Option Bool := none
deriving Repr, DecidableEq

/-- Schema `AppointmentRescheduleRequest`. -/
structure AppointmentRescheduleRequest where
  start_time : Int
  end_time : Int
  reason : Option String := none
deriving Repr, DecidableEq

/-- Schema `AppointmentCancelRequest`. -/
structure AppointmentCancelRequest where
  reason : Option String := none
  notify_patient : Bool := false
deriving Repr, DecidableEq

/-- Schema `AvailabilitySlot`. -/
structure AvailabilitySlot where
  start_time : Int
  end_time : Int
deriving Repr, DecidableEq

/-- Schema `AppointmentAvailability`. -/
structure AppointmentAvailability where
  provider_id : Int
  location : Option String
  slots : List AvailabilitySlot
deriving Repr, DecidableEq

/-- The exceptions the service raises: `AppointmentNotFoundError`,
`AppointmentConflictError(code, message, alternatives)`, `ValueError`, and
Python's `AttributeError`. -/
inductive AppError where
  | notFound
  | conflict (code : String) (message : String) (alternatives : List AvailabilitySlot)
  | valueError (message : String)
  | attributeError (message : String)
deriving Repr, DecidableEq

/-- `AppointmentConflictError(code)` with defaulted message and empty
alternatives, as raised by `_check_overlap`, `create_appointment`,
`update_appointment` and `reschedule_appointment`'s range check. -/
def conflictErr (code : String) : AppError :=
  .conflict code code []

/-- Result of a lifecycle operation: the returned appointment or the raised
error, together with the session state at the point of return. -/
inductive OpOutcome where
  | ok (appt : Appointment) (sess : DbSession)
  | err (e : AppError) (sess : DbSession)
deriving Repr, DecidableEq

/-! ## Interval utilities (`_merge_intervals`, `_chunk_interval`) -/

/-- The fold body of `_merge_intervals`: `last` is `merged[-1]`, the Python
loop either extends it (`current_start <= last_end`) or appends it and starts
a new group. -/
def mergeLoop (last : Int × Int) : List (Int × Int) → List (Int × Int)
  | [] => [last]
  | (current_start, current_end) :: rest =>
      if current_start ≤ last.2 then
        mergeLoop (last.1, max last.2 current_end) rest
      else
        last :: mergeLoop (current_start, current_end) rest

/-- Lexicographic comparison of code-point lists: Python's string `<`. -/
def charListLt : List Char → List Char → Bool
  | [], [] => false
  | [], _ :: _ => true
  | _ :: _, [] => false
  | c :: cs, d :: ds =>
      if c.toNat < d.toNat then true
      else if d.toNat < c.toNat then false
      else charListLt cs ds

/-- Python's string `<` on the underlying code points. -/
def pyStrLt (a b : String) : Bool :=
  charListLt a.toList b.toList

/-- Insert `x` into `l` before the first element not strictly below it; the
building block of a stable sort. -/
def insertSorted {α : Type} (lt : α → α → Bool) (x : α) : List α → List α
  | [] => [x]
  | y :: ys => if lt y x then y :: insertSorted lt x ys else x :: y :: ys

/-- Stable insertion sort: the semantics of Python's `sorted` for the strict
comparison `lt` derived from the sort key. -/
def stableSortBy {α : Type} (lt : α → α → Bool) : List α → List α
  | [] => []
  | x :: xs => insertSorted lt x (stableSortBy lt xs)

/-- `sorted(intervals, key=lambda item: item[0])`: stable sort by start. -/
def sortByStart (intervals : List (Int × Int)) : List (Int × Int) :=
  stableSortBy (fun a b => decide (a.1 < b.1)) intervals

/-- `_merge_intervals`. -/
def _merge_intervals (intervals : List (Int × Int)) : List (Int × Int) :=
  match sortByStart intervals with
  | [] => []
  | first :: rest => mergeLoop first rest

/-- The `while current + step <= end` loop of `_chunk_interval`, structurally
recursive on an explicit iteration budget.  The source loop does not terminate
for `step ≤ 0`; the extra `0 < step` conjunct in the guard makes the Lean
function total and agrees with the source whenever the source terminates
(`chunkFrom` supplies a budget that `chunkGo_eq_of_fuel` shows is never
exhausted). -/
def chunkGo (endT step : Int) : Nat → Int → List (Int × Int)
  | 0, _ => []
  | fuel + 1, current =>
      if 0 < step ∧ current + step ≤ endT then
        (current, current + step) :: chunkGo endT step fuel (current + step)
      else
        []

/-- The chunk loop started at `current`, with a sufficient budget. -/
def chunkFrom (endT step current : Int) : List (Int × Int) :=
  chunkGo endT step (endT - current).toNat current

/-- `_chunk_interval(start, end, slot_minutes)`;
`step = timedelta(minutes=slot_minutes)` is `60 * slot_minutes` seconds. -/
def _chunk_interval (start endT : Int) (slot_minutes : Int) : List (Int × Int) :=
  chunkFrom endT (60 * slot_minutes) start

/-! ## Availability planner (`_generate_availability_slots`, `search_availability`) -/

/-- The `for busy_start, busy_end in merged_busy` loop of
`_generate_availability_slots`, including the early `break` once the pointer
reaches `end_to` and the trailing free gap after the loop. -/
def availabilityLoop (end_to slot_minutes : Int) (pointer : Int) :
    List (Int × Int) → List AvailabilitySlot
  | [] =>
      if pointer < end_to then
        (_chunk_interval pointer end_to slot_minutes).map (fun c => ⟨c.1, c.2⟩)
      else []
  | (busy_start, busy_end) :: rest =>
      let head : List AvailabilitySlot :=
        if busy_start > pointer then
          (_chunk_interval pointer (min busy_start end_to) slot_minutes).map (fun c => ⟨c.1, c.2⟩)
        else []
      let pointer' := max pointer busy_end
      if pointer' ≥ end_to then head
      else head ++ availabilityLoop end_to slot_minutes pointer' rest

/-- `_generate_availability_slots`. -/
def _generate_availability_slots (start_from end_to slot_minutes : Int)
    (busy : List (Int × Int)) : List AvailabilitySlot :=
  let clamped := (busy.filter
      (fun b => decide (b.1 < end_to) && decide (b.2 > start_from))).map
    (fun b => (max start_from b.1, min end_to b.2))
  let merged_busy := _merge_intervals clamped
  availabilityLoop end_to slot_minutes start_from merged_busy

/-- The grouping key `(row.provider_id, row.location)` of `search_availability`. -/
def appointmentKey (a : Appointment) : Int × Option String :=
  (a.provider_id, a.location)

/-- First-occurrence deduplication against the keys already seen. -/
def firstOccurAux {α : Type} [DecidableEq α] (seen : List α) :
    List α → List α
  | [] => []
  | a :: rest =>
      if a ∈ seen then firstOccurAux seen rest
      else a :: firstOccurAux (a :: seen) rest

/-- First-occurrence deduplication: the key order of a Python dict / the
element set of a Python `set` built by insertion. -/
def firstOccur {α : Type} [DecidableEq α] (l : List α) : List α :=
  firstOccurAux [] l

/-- `grouped[(provider_id, location)]`: the busy intervals of one group, in
row order. -/
def groupBusy (rows : List Appointment) (key : Int × Option String) :
    List (Int × Int) :=
  (rows.filter (fun r => appointmentKey r == key)).map
    (fun r => (r.start_time, r.end_time))

/-- The `location = None` fallback of `search_availability`: pool all busy
intervals of the provider across its grouped keys, in dict order. -/
def pooledBusy (rows : List Appointment) (provider_id : Int) : List (Int × Int) :=
  ((firstOccur (rows.map appointmentKey)).filter
      (fun k => k.1 == provider_id)).flatMap (groupBusy rows)

/-- The reported group keys: the keys found among the rows, plus — with a
location filter — `(p, location)` for every requested provider, or — without
one — `(p, None)` for every provider with no busy rows. -/
def searchKeys (rows : List Appointment) (normalized_providers : List Int)
    (location : Option String) : List (Int × Option String) :=
  let rowKeys := firstOccur (rows.map appointmentKey)
  let withExtra :=
    match location with
    | some loc => rowKeys ++ normalized_providers.map (fun p => (p, some loc))
    | none =>
        rowKeys ++
          (normalized_providers.filter
              (fun p => ¬ rowKeys.any (fun k => k.1 == p))).map
            (fun p => ((p, none) : Int × Option String))
  firstOccur withExtra

/-- The strict comparison behind
`sorted(keys, key=lambda item: (item[0], item[1] or ""))`. -/
def keyLT (a b : Int × Option String) : Bool :=
  decide (a.1 < b.1) || (a.1 == b.1 && pyStrLt (a.2.getD "") (b.2.getD ""))

/-- The busy-interval list `search_availability` feeds to the generator for one
group key. -/
def busyForKey (rows : List Appointment) (key : Int × Option String) :
    List (Int × Int) :=
  match key.2 with
  | none => pooledBusy rows key.1
  | some _ => groupBusy rows key

/-- The row filter of `search_availability`'s SQL statement. -/
def searchRowFilter (start_from end_to : Int) (normalized_providers : List Int)
    (location : Option String) (exclude_appointment_id : Option Int)
    (a : Appointment) : Bool :=
  a.status != "cancelled" && decide (a.start_time < end_to) &&
    decide (a.end_time > start_from) &&
    normalized_providers.contains a.provider_id &&
    (match location with
     | some _ => a.location == location
     | none => true) &&
    (match exclude_appointment_id with
     | some i => a.id != i
     | none => true)

/-- The successful result of `search_availability`: one availability group per
reported key, in sorted key order. -/
def searchGroups (st : Store) (start_from end_to : Int)
    (normalized_providers : List Int) (location : Option String)
    (slot_minutes : Int) (exclude_appointment_id : Option Int) :
    List AppointmentAvailability :=
  (stableSortBy keyLT
    (searchKeys
      (st.appointments.filter
        (searchRowFilter start_from end_to normalized_providers location
          exclude_appointment_id))
      normalized_providers location)).map (fun key =>
    { provider_id := key.1
      location := key.2
      slots := _generate_availability_slots start_from end_to slot_minutes
        (busyForKey
          (st.appointments.filter
            (searchRowFilter start_from end_to normalized_providers location
              exclude_appointment_id))
          key) })

/-- `search_availability`. -/
def search_availability (st : Store) (start_from end_to : Int)
    (provider_ids : Option (List (Option Int))) (location : Option String)
    (slot_minutes : Int) (exclude_appointment_id : Option Int) :
    Except AppError (List AppointmentAvailability) :=
  if start_from ≥ end_to then
    .error (.valueError "start_from must be before end_to")
  else if slot_minutes ≤ 0 then
    .error (.valueError "slot_minutes must be positive")
  else
    let normalized_providers := (provider_ids.getD []).filterMap id
    if normalized_providers.isEmpty then
      .error (.valueError "At least one provider_id must be supplied")
    else
      .ok (searchGroups st start_from end_to normalized_providers location
        slot_minutes exclude_appointment_id)

/-! ## Lifecycle manager (`create/update/cancel/reschedule_appointment`) -/

/-- `session.get(Appointment, appointment_id)`: primary-key lookup. -/
def Store.getAppointment (st : Store) (appointment_id : Int) : Option Appointment :=
  st.appointments.find? (fun a => a.id == appointment_id)

/-- Writing back a mutated ORM row: replace the row carrying its id. -/
def Store.setAppointment (st : Store) (a : Appointment) : Store :=
  { st with
    appointments := st.appointments.map (fun b => if b.id == a.id then a else b) }

/-- `_add_status_history`. -/
def addStatusHistory (st : Store) (appointment_id : Int) (status : String)
    (actor_id : Option Int) (note : Option String) (now : Int) : Store :=
  { st with
    history := st.history ++
      [{ appointment_id := appointment_id, status := status,
         changed_by := actor_id, changed_at := now, note := note }] }

/-- `audit.record_event`, reduced to the fields of the modelled event row. -/
def recordEvent (st : Store) (actor_id : Option Int) (action : String)
    (resource_id : Option String) (now : Int) : Store :=
  { st with
    events := st.events ++
      [{ actor_id := actor_id, action := action, resource_id := resource_id,
         timestamp := now }] }

/-- `_check_overlap`, as the Boolean outcome of its conflict query.  The
`if exclude_id:` guard in the source tests Python truthiness, so an
`exclude_id` of `None` or `0` adds no exclusion clause. -/
def hasOverlap (st : Store) (provider_id start_time end_time : Int)
    (exclude_id : Option Int) : Bool :=
  st.appointments.any (fun a =>
    a.provider_id == provider_id && a.status != "cancelled" &&
      decide (a.start_time < end_time) && decide (a.end_time > start_time) &&
      (match exclude_id with
       | some i => if i != 0 then a.id != i else true
       | none => true))

/-- `datetime.isoformat()`, modelled as an injective rendering of the instant. -/
def isoformat (t : Int) : String :=
  toString t

/-- The row `create_appointment` inserts: the request fields, a fresh id,
status `scheduled`. -/
def createdRow (st : Store) (data : AppointmentCreate) (actor_id : Option Int)
    (now : Int) : Appointment :=
  { id := st.nextId
    patient_id := data.patient_id
    provider_id := data.provider_id
    service_type := data.service_type
    location := data.location
    start_time := data.start_time
    end_time := data.end_time
    notes := data.notes
    status := "scheduled"
    created_by := actor_id
    cancelled_reason := none
    cancelled_at := none
    created_at := now
    updated_at := now }

/-- `create_appointment`.  The post-commit notification call is an external
collaborator and is not modelled. -/
def create_appointment (sess : DbSession) (data : AppointmentCreate)
    (actor_id : Option Int) (now : Int) : OpOutcome :=
  if data.start_time ≥ data.end_time then
    .err (conflictErr "INVALID_TIME_RANGE") sess
  else if hasOverlap sess.pending data.provider_id data.start_time data.end_time
      none then
    .err (conflictErr "PROVIDER_OVERLAP") sess
  else
    let appointment : Appointment := createdRow sess.pending data actor_id now
    let st1 : Store :=
      { sess.pending with
        appointments := sess.pending.appointments ++ [appointment]
        nextId := sess.pending.nextId + 1 }
    let st2 := addStatusHistory st1 appointment.id appointment.status actor_id
      none now
    let st3 := recordEvent st2 actor_id "appointment.create"
      (some (toString appointment.id)) now
    .ok appointment (commit { sess with pending := st3 })

/-- `update_appointment`.  After the range check the source evaluates
`data.provider_id`; `AppointmentUpdate` declares no such field, so Python
raises `AttributeError` there and the remainder of the function is
unreachable. -/
def update_appointment (sess : DbSession) (appointment_id : Int)
    (data : AppointmentUpdate) (actor_id : Option Int) (now : Int) : OpOutcome :=
  match sess.pending.getAppointment appointment_id with
  | none => .err .notFound sess
  | some appointment =>
      let new_start := data.start_time.getD appointment.start_time
      let new_end := data.end_time.getD appointment.end_time
      if new_start ≥ new_end then
        .err (conflictErr "INVALID_TIME_RANGE") sess
      else
        .err (.attributeError
          "AppointmentUpdate object has no field provider_id") sess

/-- `_collect_alternative_slots`'s accumulation loop: extend with each group's
slots, stopping once at least 5 are gathered. -/
def collectLoop : List AppointmentAvailability → List AvailabilitySlot →
    List AvailabilitySlot
  | [], slots => slots
  | entry :: rest, slots =>
      let slots' := slots ++ entry.slots
      if slots'.length ≥ 5 then slots' else collectLoop rest slots'

/-- `_collect_alternative_slots`.  `total_seconds() // 60` is Python floor
division, hence `Int.fdiv`; `timedelta(hours=8)` and `timedelta(days=1)` are
`8 * 3600` and `86400` seconds.  An error from `search_availability` would
propagate (none can occur for these arguments). -/
def _collect_alternative_slots (st : Store) (appointment : Appointment)
    (desired_start desired_end : Int) : Except AppError (List AvailabilitySlot) :=
  let slot_minutes := max (Int.fdiv (desired_end - desired_start) 60) 1
  let window_end := min (desired_start + 8 * 3600) (desired_start + 86400)
  match search_availability st desired_start window_end
      (some [some appointment.provider_id]) appointment.location slot_minutes
      (some appointment.id) with
  | .error e => .error e
  | .ok availabilities => .ok ((collectLoop availabilities []).take 5)

/-- The `"; ".join(note_parts)` history note of `reschedule_appointment`.
The `if appointment.location:` and `if data.reason:` guards test Python
truthiness, so an empty string contributes no part. -/
def rescheduleNote (previous_start previous_end : Int) (location : Option String)
    (reason : Option String) : String :=
  String.intercalate "; "
    (["from=" ++ isoformat previous_start, "to=" ++ isoformat previous_end] ++
      (match location with
       | some l => if l ≠ "" then ["location=" ++ l] else []
       | none => []) ++
      (match reason with
       | some r => if r ≠ "" then ["reason=" ++ r] else []
       | none => []))

/-- `reschedule_appointment`.  The post-commit notification call is not
modelled. -/
def reschedule_appointment (sess : DbSession) (appointment_id : Int)
    (data : AppointmentRescheduleRequest) (actor_id : Option Int) (now : Int) :
    OpOutcome :=
  match sess.pending.getAppointment appointment_id with
  | none => .err .notFound sess
  | some appointment =>
      let new_start := data.start_time
      let new_end := data.end_time
      if new_start ≥ new_end then
        .err (conflictErr "INVALID_TIME_RANGE") sess
      else if hasOverlap sess.pending appointment.provider_id new_start new_end
          (some appointment.id) then
        match _collect_alternative_slots sess.pending appointment new_start
            new_end with
        | .error e => .err e sess
        | .ok alternatives =>
            .err (.conflict "PROVIDER_OVERLAP" "PROVIDER_OVERLAP" alternatives)
              sess
      else
        let previous_start := appointment.start_time
        let previous_end := appointment.end_time
        let appointment2 : Appointment :=
          { appointment with
            start_time := new_start
            end_time := new_end
            updated_at := now
            status := "scheduled" }
        let note := rescheduleNote previous_start previous_end
          appointment2.location data.reason
        let st1 := sess.pending.setAppointment appointment2
        let st2 := addStatusHistory st1 appointment2.id "rescheduled" actor_id
          (some note) now
        let st3 := recordEvent st2 actor_id "appointment.reschedule"
          (some (toString appointment2.id)) now
        .ok appointment2 (commit { sess with pending := st3 })

/-- `cancel_appointment`.  The conditional post-commit notification is not
modelled. -/
def cancel_appointment (sess : DbSession) (appointment_id : Int)
    (request : AppointmentCancelRequest) (actor_id : Option Int) (now : Int) :
    OpOutcome :=
  match sess.pending.getAppointment appointment_id with
  | none => .err .notFound sess
  | some appointment =>
      let appointment2 : Appointment :=
        { appointment with
          status := "cancelled"
          cancelled_reason := request.reason
          cancelled_at := some now
          updated_at := now }
      let st1 := sess.pending.setAppointment appointment2
      let st2 := addStatusHistory st1 appointment2.id appointment2.status
        actor_id request.reason now
      let st3 := recordEvent st2 actor_id "appointment.cancel"
        (some (toString appointment2.id)) now
      .ok appointment2 (commit { sess with pending := st3 })

/-- One invocation of the lifecycle manager, with its nondeterministic inputs
(`actor_id`, the wall clock `now`) made explicit. -/
inductive LifecycleOp where
  | create (data : AppointmentCreate) (actor_id : Option Int) (now : Int)
  | update (appointment_id : Int) (data : AppointmentUpdate)
      (actor_id : Option Int) (now : Int)
  | cancel (appointment_id : Int) (request : AppointmentCancelRequest)
      (actor_id : Option Int) (now : Int)
  | reschedule (appointment_id : Int) (data : AppointmentRescheduleRequest)
      (actor_id : Option Int) (now : Int)
deriving Repr, DecidableEq

/-- Dispatch a lifecycle operation. -/
def applyOp (sess : DbSession) : LifecycleOp → OpOutcome
  | .create data actor_id now => create_appointment sess data actor_id now
  | .update appointment_id data actor_id now =>
      update_appointment sess appointment_id data actor_id now
  | .cancel appointment_id request actor_id now =>
      cancel_appointment sess appointment_id request actor_id now
  | .reschedule appointment_id data actor_id now =>
      reschedule_appointment sess appointment_id data actor_id now

/-- A sequential execution in which every operation succeeds. -/
inductive SuccessTrace : DbSession → List LifecycleOp → DbSession → Prop
  | nil (sess : DbSession) : SuccessTrace sess [] sess
  | cons {sess : DbSession} {op : LifecycleOp} {appt : Appointment}
      {sess2 sess3 : DbSession} {ops : List LifecycleOp}
      (hstep : applyOp sess op = .ok appt sess2)
      (hrest : SuccessTrace sess2 ops sess3) :
      SuccessTrace sess (op :: ops) sess3

/-! ## Lemmas about `_chunk_interval` -/

/-- Every chunk the loop emits has length exactly `step` and lies within
`[current, endT)`, regardless of the budget. -/
theorem chunkGo_mem (endT step : Int) : ∀ (fuel : Nat) (current : Int)
    (c : Int × Int), c ∈ chunkGo endT step fuel current →
    c.2 = c.1 + step ∧ current ≤ c.1 ∧ c.2 ≤ endT := by
  intro fuel
  induction fuel with
  | zero => intro current c hc; simp [chunkGo] at hc
  | succ fuel ih =>
      intro current c hc
      rw [chunkGo] at hc
      split at hc
      · rename_i hguard
        rcases List.mem_cons.mp hc with hc | hc
        · subst hc
          exact ⟨rfl, le_refl _, hguard.2⟩
        · have IH := ih (current + step) c hc
          refine ⟨IH.1, ?_, IH.2.2⟩
          have := IH.2.1
          have := hguard.1
          omega
      · simp at hc

/-- Every chunk has length exactly `step` and lies within `[current, endT)`. -/
theorem chunkFrom_mem (endT step : Int) : ∀ (current : Int) (c : Int × Int),
    c ∈ chunkFrom endT step current →
    c.2 = c.1 + step ∧ current ≤ c.1 ∧ c.2 ≤ endT := by
  intro current
  exact chunkGo_mem endT step _ current

/-- With a sufficient budget and positive step, the chunk loop emits the
consecutive full-step slots, one per `k < (endT - current) / step`. -/
theorem chunkGo_eq_of_fuel (endT step : Int) (hstep : 0 < step) :
    ∀ (fuel : Nat) (current : Int), (endT - current).toNat ≤ fuel →
    chunkGo endT step fuel current =
      (List.range ((endT - current).toNat / step.toNat)).map
        (fun k : Nat =>
          (current + (k : Int) * step, current + ((k : Int) + 1) * step)) := by
  intro fuel
  induction fuel with
  | zero =>
      intro current hfuel
      have hz : (endT - current).toNat = 0 := by omega
      rw [chunkGo, hz]
      simp
  | succ fuel ih =>
      intro current hfuel
      rw [chunkGo]
      by_cases hle : current + step ≤ endT
      · rw [if_pos ⟨hstep, hle⟩]
        have hsplit : (endT - current).toNat =
            (endT - (current + step)).toNat + step.toNat := by omega
        have hpos : 0 < step.toNat := by omega
        have IH := ih (current + step) (by omega)
        rw [hsplit, Nat.add_div_right _ hpos, List.range_succ_eq_map,
          List.map_cons, IH]
        refine congrArg₂ _ ?_ ?_
        · simp
        · rw [List.map_map]
          refine List.map_congr_left ?_
          intro k _
          simp only [Function.comp_apply, Nat.succ_eq_add_one, Prod.mk.injEq]
          constructor <;> push_cast <;> ring
      · rw [if_neg (fun hand => hle hand.2)]
        have hz : (endT - current).toNat / step.toNat = 0 := by
          refine Nat.div_eq_of_lt ?_
          omega
        rw [hz]
        simp

/-- Exact characterization of the chunk loop for a positive step. -/
theorem chunkFrom_eq_range (endT step : Int) (hstep : 0 < step) :
    ∀ current : Int,
    chunkFrom endT step current =
      (List.range ((endT - current).toNat / step.toNat)).map
        (fun k : Nat =>
          (current + (k : Int) * step, current + ((k : Int) + 1) * step)) := by
  intro current
  exact chunkGo_eq_of_fuel endT step hstep _ current (le_refl _)

/-- C7: for positive `slotMinutes`, `chunk(start, end, slotMinutes)` emits
exactly the consecutive slots `start + k*slotMinutes` for as long as the full
step fits, each of length exactly `slotMinutes` minutes and wholly within
`[start, end)`; no shorter trailing slot is ever emitted. -/
theorem chunk_interval_spec (start endT m : Int) (hm : 0 < m) :
    _chunk_interval start endT m =
      (List.range ((endT - start).toNat / (60 * m).toNat)).map
        (fun k : Nat =>
          (start + (k : Int) * (60 * m), start + ((k : Int) + 1) * (60 * m))) ∧
    ∀ c ∈ _chunk_interval start endT m,
      c.2 - c.1 = 60 * m ∧ start ≤ c.1 ∧ c.2 ≤ endT := by
  constructor
  · exact chunkFrom_eq_range endT (60 * m) (by omega) start
  · intro c hc
    have h := chunkFrom_mem endT (60 * m) start c hc
    exact ⟨by omega, h.2.1, h.2.2⟩

/-- Concrete instance of `chunk_interval_spec`: a 150-second window with
1-minute slots yields exactly the two full slots. -/
theorem chunk_interval_spec_witness :
    _chunk_interval 0 150 1 = [(0, 60), (60, 120)] ∧
    ∀ c ∈ _chunk_interval 0 150 1, c.2 - c.1 = 60 * 1 ∧ 0 ≤ c.1 ∧ c.2 ≤ 150 := by
  have h := chunk_interval_spec 0 150 1 (by decide)
  refine ⟨?_, h.2⟩
  rw [h.1]
  decide

/-! ## Lemmas about `_merge_intervals` -/

/-- Output structure of the merge fold: if the pending interval starts no
later than every upcoming interval and the upcoming intervals are sorted by
start, then the output (1) starts no earlier than the pending start, (2) is
strictly gap-separated and sorted by start, and (3) covers every input
interval. -/
theorem mergeLoop_spec :
    ∀ (rest : List (Int × Int)) (last : Int × Int),
    (∀ c ∈ rest, last.1 ≤ c.1) →
    rest.Pairwise (fun a b => a.1 ≤ b.1) →
    (∀ m ∈ mergeLoop last rest, last.1 ≤ m.1) ∧
    (mergeLoop last rest).Pairwise (fun a b => a.2 < b.1 ∧ a.1 ≤ b.1) ∧
    (∀ c ∈ last :: rest, ∃ m ∈ mergeLoop last rest, m.1 ≤ c.1 ∧ c.2 ≤ m.2) := by
  intro rest
  induction rest with
  | nil =>
      intro last _ _
      refine ⟨?_, ?_, ?_⟩
      · intro m hm
        simp only [mergeLoop, List.mem_singleton] at hm
        subst hm
        exact le_refl _
      · simp [mergeLoop]
      · intro c hc
        have hc' : c = last := by simpa using hc
        refine ⟨last, by simp [mergeLoop], ?_, ?_⟩ <;> simp [hc']
  | cons current t ih =>
      intro last hle hpw
      obtain ⟨cs, ce⟩ := current
      have hcs : last.1 ≤ cs := hle (cs, ce) (List.mem_cons_self _ _)
      have ht : ∀ c ∈ t, cs ≤ c.1 := by
        intro c hc
        exact (List.pairwise_cons.mp hpw).1 c hc
      have htpw : t.Pairwise (fun a b => a.1 ≤ b.1) :=
        (List.pairwise_cons.mp hpw).2
      by_cases hmerge : cs ≤ last.2
      · have hle' : ∀ c ∈ t, (last.1, max last.2 ce).1 ≤ c.1 := by
          intro c hc
          exact le_trans hcs (ht c hc)
        obtain ⟨ih1, ih2, ih3⟩ := ih (last.1, max last.2 ce) hle' htpw
        have heq : mergeLoop last ((cs, ce) :: t) =
            mergeLoop (last.1, max last.2 ce) t := by
          simp [mergeLoop, hmerge]
        rw [heq]
        refine ⟨ih1, ih2, ?_⟩
        intro c hc
        rcases List.mem_cons.mp hc with hc | hc
        · obtain ⟨m, hm, hm1, hm2⟩ := ih3 (last.1, max last.2 ce)
            (List.mem_cons_self _ _)
          refine ⟨m, hm, ?_, ?_⟩
          · rw [hc]; exact hm1
          · rw [hc]; exact le_trans (le_max_left _ _) hm2
        · rcases List.mem_cons.mp hc with hc | hc
          · obtain ⟨m, hm, hm1, hm2⟩ := ih3 (last.1, max last.2 ce)
              (List.mem_cons_self _ _)
            refine ⟨m, hm, ?_, ?_⟩
            · rw [hc]; exact le_trans hm1 hcs
            · rw [hc]; exact le_trans (le_max_right _ _) hm2
          · obtain ⟨m, hm, hm1, hm2⟩ := ih3 c (List.mem_cons_of_mem _ hc)
            exact ⟨m, hm, hm1, hm2⟩
      · have hgap : last.2 < cs := lt_of_not_le hmerge
        obtain ⟨ih1, ih2, ih3⟩ := ih (cs, ce) ht htpw
        have heq : mergeLoop last ((cs, ce) :: t) =
            last :: mergeLoop (cs, ce) t := by
          simp [mergeLoop, hmerge]
        rw [heq]
        refine ⟨?_, ?_, ?_⟩
        · intro m hm
          rcases List.mem_cons.mp hm with hm | hm
          · simp [hm]
          · exact le_trans hcs (ih1 m hm)
        · refine List.pairwise_cons.mpr ⟨?_, ih2⟩
          intro m hm
          have := ih1 m hm
          exact ⟨lt_of_lt_of_le hgap this, le_trans hcs this⟩
        · intro c hc
          rcases List.mem_cons.mp hc with hc | hc
          · refine ⟨last, List.mem_cons_self _ _, ?_, ?_⟩ <;> simp [hc]
          · obtain ⟨m, hm, hm1, hm2⟩ := ih3 c hc
            exact ⟨m, List.mem_cons_of_mem _ hm, hm1, hm2⟩

/-- Membership characterization of `insertSorted`. -/
theorem mem_insertSorted {α : Type} (lt : α → α → Bool) (x : α) :
    ∀ (l : List α) (b : α), b ∈ insertSorted lt x l ↔ b = x ∨ b ∈ l := by
  intro l
  induction l with
  | nil => intro b; simp [insertSorted]
  | cons y ys ih =>
      intro b
      simp only [insertSorted]
      split
      · rw [List.mem_cons, ih, List.mem_cons]
        tauto
      · rw [List.mem_cons]

/-- Membership is preserved by the stable sort. -/
theorem mem_stableSortBy {α : Type} {lt : α → α → Bool} :
    ∀ {l : List α} {b : α}, b ∈ stableSortBy lt l ↔ b ∈ l := by
  intro l
  induction l with
  | nil => intro b; exact Iff.rfl
  | cons x xs ih =>
      intro b
      show b ∈ insertSorted lt x (stableSortBy lt xs) ↔ _
      rw [mem_insertSorted, ih, List.mem_cons]

/-- Inserting into a start-sorted list keeps it start-sorted. -/
theorem insertSorted_pairwise_fst (x : Int × Int) :
    ∀ (l : List (Int × Int)),
    l.Pairwise (fun a b => a.1 ≤ b.1) →
    (insertSorted (fun a b => decide (a.1 < b.1)) x l).Pairwise
      (fun a b => a.1 ≤ b.1) := by
  intro l
  induction l with
  | nil => intro _; simp [insertSorted]
  | cons y ys ih =>
      intro hpw
      obtain ⟨hy, hys⟩ := List.pairwise_cons.mp hpw
      simp only [insertSorted]
      split
      · rename_i hlt
        simp only [decide_eq_true_eq] at hlt
        refine List.pairwise_cons.mpr ⟨?_, ih hys⟩
        intro b hb
        rcases (mem_insertSorted _ x ys b).mp hb with hb' | hb'
        · rw [hb']
          omega
        · exact hy b hb'
      · rename_i hlt
        simp only [decide_eq_true_eq] at hlt
        refine List.pairwise_cons.mpr ⟨?_, hpw⟩
        intro b hb
        rcases List.mem_cons.mp hb with hb' | hb'
        · rw [hb']
          omega
        · have := hy b hb'
          omega

/-- `sortByStart` really sorts by start. -/
theorem sortByStart_pairwise (l : List (Int × Int)) :
    (sortByStart l).Pairwise (fun a b => a.1 ≤ b.1) := by
  induction l with
  | nil => simp [sortByStart, stableSortBy]
  | cons x xs ih =>
      show (insertSorted _ x (stableSortBy _ xs)).Pairwise _
      exact insertSorted_pairwise_fst x _ ih

/-- A start-sorted list is a fixpoint of `sortByStart`. -/
theorem sortByStart_of_sorted :
    ∀ {l : List (Int × Int)}, l.Pairwise (fun a b => a.1 ≤ b.1) →
    sortByStart l = l := by
  intro l
  induction l with
  | nil => intro _; rfl
  | cons x xs ih =>
      intro hpw
      obtain ⟨hx, hxs⟩ := List.pairwise_cons.mp hpw
      show insertSorted _ x (sortByStart xs) = x :: xs
      rw [show sortByStart xs = xs from ih hxs]
      cases xs with
      | nil => rfl
      | cons y ys =>
          have hxy : x.1 ≤ y.1 := hx y (List.mem_cons_self _ _)
          simp only [insertSorted]
          rw [if_neg (by simp only [decide_eq_true_eq]; omega)]

/-- Membership is preserved by `sortByStart`. -/
theorem mem_sortByStart {l : List (Int × Int)} {c : Int × Int} :
    c ∈ sortByStart l ↔ c ∈ l :=
  mem_stableSortBy

/-- The merged output is gap-separated and sorted by start. -/
theorem merge_intervals_pairwise (l : List (Int × Int)) :
    (_merge_intervals l).Pairwise (fun a b => a.2 < b.1 ∧ a.1 ≤ b.1) := by
  unfold _merge_intervals
  cases hsort : sortByStart l with
  | nil => simp
  | cons first rest =>
      have hpw := sortByStart_pairwise l
      rw [hsort] at hpw
      obtain ⟨hle, htpw⟩ := List.pairwise_cons.mp hpw
      exact (mergeLoop_spec rest first hle htpw).2.1

/-- Every input interval is covered by some merged output interval. -/
theorem merge_intervals_cover (l : List (Int × Int)) :
    ∀ c ∈ l, ∃ m ∈ _merge_intervals l, m.1 ≤ c.1 ∧ c.2 ≤ m.2 := by
  intro c hc
  have hc' : c ∈ sortByStart l := mem_sortByStart.mpr hc
  unfold _merge_intervals
  cases hsort : sortByStart l with
  | nil => rw [hsort] at hc'; simp at hc'
  | cons first rest =>
      have hpw := sortByStart_pairwise l
      rw [hsort] at hpw hc'
      obtain ⟨hle, htpw⟩ := List.pairwise_cons.mp hpw
      exact (mergeLoop_spec rest first hle htpw).2.2 c hc'

/-- A gap-separated list is a fixpoint of the merge fold. -/
theorem mergeLoop_of_gap :
    ∀ (rest : List (Int × Int)) (last : Int × Int),
    List.Chain' (fun a b : Int × Int => a.2 < b.1) (last :: rest) →
    mergeLoop last rest = last :: rest := by
  intro rest
  induction rest with
  | nil => intro last _; simp [mergeLoop]
  | cons current t ih =>
      intro last hchain
      obtain ⟨cs, ce⟩ := current
      obtain ⟨hgap, hchain'⟩ := List.chain'_cons.mp hchain
      have hnot : ¬ cs ≤ last.2 := not_le.mpr hgap
      simp only [mergeLoop, if_neg hnot]
      rw [ih (cs, ce) hchain']

/-- C8: `mergeIntervals` is idempotent; empty input yields empty output; the
output is sorted by start and pairwise non-overlapping under the half-open
test. -/
theorem merge_intervals_idempotent (X : List (Int × Int)) :
    _merge_intervals (_merge_intervals X) = _merge_intervals X ∧
    _merge_intervals ([] : List (Int × Int)) = [] ∧
    (_merge_intervals X).Pairwise (fun a b => a.1 ≤ b.1) ∧
    (_merge_intervals X).Pairwise
      (fun a b => ¬ (a.1 < b.2 ∧ b.1 < a.2)) := by
  have hpw := merge_intervals_pairwise X
  refine ⟨?_, by rfl, hpw.imp (fun h => h.2), hpw.imp ?_⟩
  · have hfix : sortByStart (_merge_intervals X) = _merge_intervals X :=
      sortByStart_of_sorted (hpw.imp (fun h => h.2))
    conv_lhs => rw [_merge_intervals, hfix]
    cases hout : _merge_intervals X with
    | nil => rfl
    | cons first rest =>
        have hchain : List.Chain' (fun a b : Int × Int => a.2 < b.1)
            (first :: rest) := by
          have := hpw.imp (fun h : _ ∧ _ => h.1)
          rw [hout] at this
          exact this.chain'
        exact mergeLoop_of_gap rest first hchain
  · intro a b h hov
    have := h.1
    omega

/-! ## Soundness of the availability generator -/

/-- Slots produced by the merged-busy loop stay right of the pointer, have
exact slot length, end inside the window, and avoid every merged busy
interval. -/
theorem availabilityLoop_sound (end_to sm : Int) (hsm : 0 < sm) :
    ∀ (merged : List (Int × Int)) (pointer : Int),
    merged.Pairwise (fun a b => a.1 ≤ b.1) →
    ∀ s ∈ availabilityLoop end_to sm pointer merged,
      pointer ≤ s.start_time ∧ s.end_time = s.start_time + 60 * sm ∧
      s.end_time ≤ end_to ∧
      ∀ b ∈ merged, ¬ (s.start_time < b.2 ∧ b.1 < s.end_time) := by
  intro merged
  induction merged with
  | nil =>
      intro pointer _ s hs
      simp only [availabilityLoop] at hs
      split at hs
      · obtain ⟨c, hc, rfl⟩ := List.mem_map.mp hs
        have h := chunkFrom_mem end_to (60 * sm) pointer c hc
        exact ⟨h.2.1, by simpa using h.1, h.2.2, by simp⟩
      · simp at hs
  | cons busy rest ih =>
      intro pointer hpw s hs
      obtain ⟨busy_start, busy_end⟩ := busy
      obtain ⟨hhead, htail⟩ := List.pairwise_cons.mp hpw
      have hhd : ∀ s ∈ (if busy_start > pointer then
          (_chunk_interval pointer (min busy_start end_to) sm).map
            (fun c => (⟨c.1, c.2⟩ : AvailabilitySlot))
          else []),
          pointer ≤ s.start_time ∧ s.end_time = s.start_time + 60 * sm ∧
          s.end_time ≤ end_to ∧ s.end_time ≤ busy_start := by
        intro s hs
        split at hs
        · obtain ⟨c, hc, rfl⟩ := List.mem_map.mp hs
          have h := chunkFrom_mem (min busy_start end_to) (60 * sm) pointer c hc
          refine ⟨h.2.1, by simpa using h.1, ?_, ?_⟩
          · exact le_trans h.2.2 (min_le_right _ _)
          · exact le_trans h.2.2 (min_le_left _ _)
        · simp at hs
      simp only [availabilityLoop] at hs
      split at hs
      · -- pointer reached the window end: only the head chunk was produced
        obtain ⟨h1, h2, h3, h4⟩ := hhd s hs
        refine ⟨h1, h2, h3, ?_⟩
        intro b hb
        rcases List.mem_cons.mp hb with hb | hb
        · rw [hb]
          intro hov
          exact absurd hov.2 (not_lt.mpr h4)
        · intro hov
          have hble : busy_start ≤ b.1 := hhead b hb
          have : b.1 < busy_start := lt_of_lt_of_le hov.2 h4
          omega
      · rcases List.mem_append.mp hs with hs | hs
        · obtain ⟨h1, h2, h3, h4⟩ := hhd s hs
          refine ⟨h1, h2, h3, ?_⟩
          intro b hb
          rcases List.mem_cons.mp hb with hb | hb
          · rw [hb]
            intro hov
            exact absurd hov.2 (not_lt.mpr h4)
          · intro hov
            have hble : busy_start ≤ b.1 := hhead b hb
            have : b.1 < busy_start := lt_of_lt_of_le hov.2 h4
            omega
        · have hrec := ih (max pointer busy_end) htail s hs
          obtain ⟨h1, h2, h3, h4⟩ := hrec
          refine ⟨le_trans (le_max_left _ _) h1, h2, h3, ?_⟩
          intro b hb
          rcases List.mem_cons.mp hb with hb | hb
          · rw [hb]
            intro hov
            have : busy_end ≤ s.start_time := le_trans (le_max_right _ _) h1
            omega
          · exact h4 b hb

/-- Soundness of `_generate_availability_slots`: every slot lies within
`[start_from, end_to)`, has exact slot length, and intersects no busy
interval it was computed from. -/
theorem generate_slots_sound (start_from end_to sm : Int) (hsm : 0 < sm)
    (busy : List (Int × Int)) :
    ∀ s ∈ _generate_availability_slots start_from end_to sm busy,
      start_from ≤ s.start_time ∧ s.end_time = s.start_time + 60 * sm ∧
      s.end_time ≤ end_to ∧
      ∀ b ∈ busy, ¬ (s.start_time < b.2 ∧ b.1 < s.end_time) := by
  intro s hs
  unfold _generate_availability_slots at hs
  set clamped := (busy.filter
      (fun b => decide (b.1 < end_to) && decide (b.2 > start_from))).map
    (fun b => (max start_from b.1, min end_to b.2)) with hclamped
  have hpw : (_merge_intervals clamped).Pairwise (fun a b => a.1 ≤ b.1) :=
    (merge_intervals_pairwise clamped).imp (fun h => h.2)
  have hmain := availabilityLoop_sound end_to sm hsm (_merge_intervals clamped)
    start_from hpw s hs
  obtain ⟨h1, h2, h3, h4⟩ := hmain
  have hlen : s.start_time < s.end_time := by omega
  refine ⟨h1, h2, h3, ?_⟩
  intro b hb
  intro hov
  by_cases hfilter : b.1 < end_to ∧ b.2 > start_from
  · have hmem : (max start_from b.1, min end_to b.2) ∈ clamped := by
      rw [hclamped]
      refine List.mem_map.mpr ⟨b, ?_, rfl⟩
      refine List.mem_filter.mpr ⟨hb, ?_⟩
      simp [hfilter.1, hfilter.2]
    obtain ⟨m, hm, hm1, hm2⟩ := merge_intervals_cover clamped _ hmem
    refine h4 m hm ⟨?_, ?_⟩
    · have : s.start_time < min end_to b.2 := by
        simp only [lt_min_iff]
        exact ⟨by omega, hov.1⟩
      exact lt_of_lt_of_le this hm2
    · have : max start_from b.1 < s.end_time := by
        simp only [max_lt_iff]
        exact ⟨by omega, hov.2⟩
      exact lt_of_le_of_lt hm1 this
  · push_neg at hfilter
    rcases lt_or_le b.1 end_to with hcase | hcase
    · have : b.2 ≤ start_from := hfilter hcase
      omega
    · omega

/-! ## Soundness of `search_availability` -/

/-- Membership characterization of `firstOccurAux`. -/
theorem mem_firstOccurAux {α : Type} [DecidableEq α] :
    ∀ (l seen : List α) (b : α),
    b ∈ firstOccurAux seen l ↔ b ∈ l ∧ b ∉ seen := by
  intro l
  induction l with
  | nil => intro seen b; simp [firstOccurAux]
  | cons a rest ih =>
      intro seen b
      simp only [firstOccurAux]
      split
      · rename_i hseen
        rw [ih seen b, List.mem_cons]
        constructor
        · intro hb
          exact ⟨Or.inr hb.1, hb.2⟩
        · rintro ⟨hba | hr, hs⟩
          · exact absurd (by rw [hba]; exact hseen) hs
          · exact ⟨hr, hs⟩
      · rename_i hseen
        simp only [List.mem_cons, ih (a :: seen) b]
        constructor
        · rintro (hba | ⟨hr, hs⟩)
          · refine ⟨Or.inl hba, ?_⟩
            rw [hba]
            exact hseen
          · exact ⟨Or.inr hr, fun hmem => hs (Or.inr hmem)⟩
        · rintro ⟨hba | hr, hs⟩
          · exact Or.inl hba
          · by_cases hba : b = a
            · exact Or.inl hba
            · exact Or.inr ⟨hr, fun hmem => hmem.elim hba hs⟩

/-- First-occurrence deduplication preserves membership. -/
theorem mem_firstOccur {α : Type} [DecidableEq α] :
    ∀ {l : List α} {a : α}, a ∈ firstOccur l ↔ a ∈ l := by
  intro l a
  rw [firstOccur, mem_firstOccurAux]
  simp

/-- Every requested provider owns at least one reported group key. -/
theorem searchKeys_covers (rows : List Appointment)
    (normalized_providers : List Int) (location : Option String) :
    ∀ p ∈ normalized_providers,
      ∃ key ∈ searchKeys rows normalized_providers location, key.1 = p := by
  intro p hp
  unfold searchKeys
  cases location with
  | some loc =>
      refine ⟨(p, some loc), ?_, rfl⟩
      rw [mem_firstOccur]
      exact List.mem_append_right _ (List.mem_map.mpr ⟨p, hp, rfl⟩)
  | none =>
      by_cases hhas : (firstOccur (rows.map appointmentKey)).any
          (fun k => k.1 == p)
      · obtain ⟨k, hk, hkp⟩ := List.any_eq_true.mp hhas
        refine ⟨k, ?_, by simpa using hkp⟩
        rw [mem_firstOccur]
        exact List.mem_append_left _ hk
      · refine ⟨(p, none), ?_, rfl⟩
        rw [mem_firstOccur]
        refine List.mem_append_right _ (List.mem_map.mpr ⟨p, ?_, rfl⟩)
        refine List.mem_filter.mpr ⟨hp, ?_⟩
        simp only [decide_eq_true_eq]
        exact hhas

/-- When all three preconditions hold, `search_availability` returns its
group list. -/
theorem search_availability_eq_ok (st : Store) (start_from end_to : Int)
    (provider_ids : Option (List (Option Int))) (location : Option String)
    (slot_minutes : Int) (exclude_appointment_id : Option Int)
    (h1 : start_from < end_to) (h2 : 0 < slot_minutes)
    (h3 : (provider_ids.getD []).filterMap id ≠ []) :
    search_availability st start_from end_to provider_ids location slot_minutes
      exclude_appointment_id =
      .ok (searchGroups st start_from end_to
        ((provider_ids.getD []).filterMap id) location slot_minutes
        exclude_appointment_id) := by
  unfold search_availability
  rw [if_neg (not_le.mpr h1), if_neg (not_le.mpr h2)]
  simp only [List.isEmpty_iff]
  rw [if_neg h3]

/-- C6: under the planner preconditions, `computeAvailability` succeeds; every
returned slot lies wholly within `[windowStart, windowEnd)` and intersects no
busy interval of the group it was computed from; and every requested provider
is reported as a group (possibly with an empty slot list). -/
theorem availability_slots_sound (st : Store) (start_from end_to : Int)
    (provider_ids : Option (List (Option Int))) (location : Option String)
    (slot_minutes : Int) (exclude_appointment_id : Option Int)
    (h1 : start_from < end_to) (h2 : 0 < slot_minutes)
    (h3 : (provider_ids.getD []).filterMap id ≠ []) :
    ∃ res, search_availability st start_from end_to provider_ids location
        slot_minutes exclude_appointment_id = .ok res ∧
      (∀ entry ∈ res, ∀ s ∈ entry.slots,
        start_from ≤ s.start_time ∧ s.end_time ≤ end_to ∧
        ∀ b ∈ busyForKey
            (st.appointments.filter
              (searchRowFilter start_from end_to
                ((provider_ids.getD []).filterMap id) location
                exclude_appointment_id))
            (entry.provider_id, entry.location),
          ¬ (s.start_time < b.2 ∧ b.1 < s.end_time)) ∧
      (∀ p ∈ (provider_ids.getD []).filterMap id,
        ∃ entry ∈ res, entry.provider_id = p) := by
  refine ⟨_, search_availability_eq_ok st start_from end_to provider_ids
    location slot_minutes exclude_appointment_id h1 h2 h3, ?_, ?_⟩
  · intro entry hentry s hs
    unfold searchGroups at hentry
    obtain ⟨key, _, rfl⟩ := List.mem_map.mp hentry
    have hsound := generate_slots_sound start_from end_to slot_minutes h2
      (busyForKey
        (st.appointments.filter
          (searchRowFilter start_from end_to
            ((provider_ids.getD []).filterMap id) location
            exclude_appointment_id)) key) s hs
    exact ⟨hsound.1, hsound.2.2.1, hsound.2.2.2⟩
  · intro p hp
    obtain ⟨key, hkey, hkp⟩ := searchKeys_covers
      (st.appointments.filter
        (searchRowFilter start_from end_to
          ((provider_ids.getD []).filterMap id) location
          exclude_appointment_id))
      ((provider_ids.getD []).filterMap id) location p hp
    refine ⟨_, List.mem_map.mpr ⟨key, mem_stableSortBy.mpr hkey, rfl⟩, ?_⟩
    exact hkp

/-- A scheduled 09:00–09:30 appointment of provider 10 in Room 1 (times in
seconds from midnight), used as a concrete evaluation fixture. -/
def exampleAppt : Appointment :=
  { id := 1, patient_id := 1, provider_id := 10, location := some "Room 1",
    service_type := none, start_time := 32400, end_time := 34200,
    status := "scheduled", notes := none, created_by := none,
    cancelled_reason := none, cancelled_at := none, created_at := 0,
    updated_at := 0 }

/-- A store holding only `exampleAppt`. -/
def exampleStore : Store :=
  { appointments := [exampleAppt], history := [], events := [], nextId := 2 }

/-- Concrete instance of `availability_slots_sound`: one busy appointment
09:00–09:30, window 09:00–12:00, 30-minute slots. -/
theorem availability_slots_sound_witness :
    (32400 : Int) < 43200 ∧ (0 : Int) < 30 ∧
    ∃ res, search_availability exampleStore 32400 43200 (some [some 10]) none
        30 none = .ok res ∧
      (∀ entry ∈ res, ∀ s ∈ entry.slots,
        32400 ≤ s.start_time ∧ s.end_time ≤ 43200 ∧
        ∀ b ∈ busyForKey
            (exampleStore.appointments.filter
              (searchRowFilter 32400 43200
                (((some [some 10] : Option (List (Option Int))).getD
                  []).filterMap id) none none))
            (entry.provider_id, entry.location),
          ¬ (s.start_time < b.2 ∧ b.1 < s.end_time)) ∧
      (∀ p ∈ (((some [some 10] : Option (List (Option Int))).getD
          []).filterMap id),
        ∃ entry ∈ res, entry.provider_id = p) := by
  exact ⟨by decide, by decide,
    availability_slots_sound exampleStore 32400 43200 (some [some 10]) none 30
      none (by decide) (by decide) (by decide)⟩

/-- C9: `computeAvailability` raises a validation error — never a NotFound,
Conflict or other error — exactly when the window is inverted or empty, the
slot size is not positive, or the (normalized) provider set is empty. -/
theorem search_availability_validation_spec (st : Store)
    (start_from end_to : Int) (provider_ids : Option (List (Option Int)))
    (location : Option String) (slot_minutes : Int)
    (exclude_appointment_id : Option Int) :
    (∀ e, search_availability st start_from end_to provider_ids location
        slot_minutes exclude_appointment_id = .error e →
      (start_from ≥ end_to ∨ slot_minutes ≤ 0 ∨
        (provider_ids.getD []).filterMap id = []) ∧
      ∃ msg, e = .valueError msg) ∧
    ((start_from ≥ end_to ∨ slot_minutes ≤ 0 ∨
        (provider_ids.getD []).filterMap id = []) →
      ∃ msg, search_availability st start_from end_to provider_ids location
        slot_minutes exclude_appointment_id = .error (.valueError msg)) := by
  constructor
  · intro e he
    by_cases h1 : start_from ≥ end_to
    · refine ⟨Or.inl h1, ?_⟩
      unfold search_availability at he
      rw [if_pos h1] at he
      exact ⟨_, (Except.error.injEq _ _).mp he.symm⟩
    · by_cases h2 : slot_minutes ≤ 0
      · refine ⟨Or.inr (Or.inl h2), ?_⟩
        unfold search_availability at he
        rw [if_neg h1, if_pos h2] at he
        exact ⟨_, (Except.error.injEq _ _).mp he.symm⟩
      · by_cases h3 : (provider_ids.getD []).filterMap id = []
        · refine ⟨Or.inr (Or.inr h3), ?_⟩
          unfold search_availability at he
          rw [if_neg h1, if_neg h2] at he
          simp only [List.isEmpty_iff] at he
          rw [if_pos h3] at he
          exact ⟨_, (Except.error.injEq _ _).mp he.symm⟩
        · exfalso
          rw [search_availability_eq_ok st start_from end_to provider_ids
            location slot_minutes exclude_appointment_id (not_le.mp h1)
            (not_le.mp h2) h3] at he
          exact Except.noConfusion he
  · intro hviol
    by_cases h1 : start_from ≥ end_to
    · refine ⟨"start_from must be before end_to", ?_⟩
      unfold search_availability
      rw [if_pos h1]
    · by_cases h2 : slot_minutes ≤ 0
      · refine ⟨"slot_minutes must be positive", ?_⟩
        unfold search_availability
        rw [if_neg h1, if_pos h2]
      · have h3 : (provider_ids.getD []).filterMap id = [] := by tauto
        refine ⟨"At least one provider_id must be supplied", ?_⟩
        unfold search_availability
        rw [if_neg h1, if_neg h2]
        simp only [List.isEmpty_iff]
        rw [if_pos h3]

/-- Concrete instance of `search_availability_validation_spec`: a non-positive
slot size yields a validation error. -/
theorem search_availability_validation_spec_witness :
    ((32400 : Int) ≥ 43200 ∨ (0 : Int) ≤ 0 ∨
      (((some [some 10] : Option (List (Option Int))).getD
        []).filterMap id) = []) ∧
    ∃ msg, search_availability exampleStore 32400 43200 (some [some 10]) none 0
      none = .error (.valueError msg) := by
  refine ⟨Or.inr (Or.inl (by decide)), ?_⟩
  exact (search_availability_validation_spec exampleStore 32400 43200
    (some [some 10]) none 0 none).2 (Or.inr (Or.inl (by decide)))

/-! ## The no-overlap invariant of the lifecycle manager -/

/-- The half-open interval intersection test
`a.start < b.end && b.start < a.end`. -/
def overlapProp (a b : Appointment) : Prop :=
  a.start_time < b.end_time ∧ b.start_time < a.end_time

/-- The rows counted by the invariant: provider `p`, status not `cancelled`. -/
def activeQuery (p : Int) (a : Appointment) : Bool :=
  a.provider_id == p && a.status != "cancelled"

/-- No two non-cancelled appointments of provider `p` intersect. -/
def NoOverlapInvariant (st : Store) (p : Int) : Prop :=
  (st.appointments.filter (activeQuery p)).Pairwise
    (fun a b => ¬ overlapProp a b)

/-- Well-formedness a relational store guarantees through its primary key:
ids are distinct, positive, and below the autoincrement counter. -/
def Store.WF (st : Store) : Prop :=
  st.appointments.Pairwise (fun a b => a.id ≠ b.id) ∧
  (∀ a ∈ st.appointments, 0 < a.id ∧ a.id < st.nextId) ∧
  0 < st.nextId

@[simp] theorem addStatusHistory_appointments (st : Store) (i : Int)
    (s : String) (actor : Option Int) (note : Option String) (now : Int) :
    (addStatusHistory st i s actor note now).appointments = st.appointments :=
  rfl

@[simp] theorem addStatusHistory_nextId (st : Store) (i : Int) (s : String)
    (actor : Option Int) (note : Option String) (now : Int) :
    (addStatusHistory st i s actor note now).nextId = st.nextId :=
  rfl

@[simp] theorem addStatusHistory_history (st : Store) (i : Int) (s : String)
    (actor : Option Int) (note : Option String) (now : Int) :
    (addStatusHistory st i s actor note now).history =
      st.history ++
        [{ appointment_id := i, status := s, changed_by := actor,
           changed_at := now, note := note }] :=
  rfl

@[simp] theorem recordEvent_appointments (st : Store) (actor : Option Int)
    (action : String) (rid : Option String) (now : Int) :
    (recordEvent st actor action rid now).appointments = st.appointments :=
  rfl

@[simp] theorem recordEvent_nextId (st : Store) (actor : Option Int)
    (action : String) (rid : Option String) (now : Int) :
    (recordEvent st actor action rid now).nextId = st.nextId :=
  rfl

@[simp] theorem recordEvent_history (st : Store) (actor : Option Int)
    (action : String) (rid : Option String) (now : Int) :
    (recordEvent st actor action rid now).history = st.history :=
  rfl

@[simp] theorem commit_pending (sess : DbSession) :
    (commit sess).pending = sess.pending :=
  rfl

@[simp] theorem commit_committed (sess : DbSession) :
    (commit sess).committed = sess.pending :=
  rfl

@[simp] theorem setAppointment_appointments (st : Store) (a : Appointment) :
    (st.setAppointment a).appointments =
      st.appointments.map (fun b => if b.id == a.id then a else b) :=
  rfl

@[simp] theorem setAppointment_nextId (st : Store) (a : Appointment) :
    (st.setAppointment a).nextId = st.nextId :=
  rfl

@[simp] theorem setAppointment_history (st : Store) (a : Appointment) :
    (st.setAppointment a).history = st.history :=
  rfl

@[simp] theorem createdRow_id (st : Store) (data : AppointmentCreate)
    (actor : Option Int) (now : Int) :
    (createdRow st data actor now).id = st.nextId := rfl

@[simp] theorem createdRow_provider_id (st : Store) (data : AppointmentCreate)
    (actor : Option Int) (now : Int) :
    (createdRow st data actor now).provider_id = data.provider_id := rfl

@[simp] theorem createdRow_status (st : Store) (data : AppointmentCreate)
    (actor : Option Int) (now : Int) :
    (createdRow st data actor now).status = "scheduled" := rfl

@[simp] theorem createdRow_start_time (st : Store) (data : AppointmentCreate)
    (actor : Option Int) (now : Int) :
    (createdRow st data actor now).start_time = data.start_time := rfl

@[simp] theorem createdRow_end_time (st : Store) (data : AppointmentCreate)
    (actor : Option Int) (now : Int) :
    (createdRow st data actor now).end_time = data.end_time := rfl

/-- Reading `_check_overlap`'s negative verdict with no exclusion. -/
theorem hasOverlap_false_none {st : Store} {p s e : Int}
    (h : hasOverlap st p s e none = false) :
    ∀ a ∈ st.appointments, a.provider_id = p → a.status ≠ "cancelled" →
      ¬ (a.start_time < e ∧ a.end_time > s) := by
  intro a ha hp hs hov
  have := List.any_eq_false.mp h a ha
  simp only [Bool.and_eq_true, beq_iff_eq, bne_iff_ne, ne_eq,
    decide_eq_true_eq] at this
  tauto

/-- Reading `_check_overlap`'s negative verdict with a truthy exclusion id. -/
theorem hasOverlap_false_some {st : Store} {p s e i : Int}
    (h : hasOverlap st p s e (some i) = false) (hi : i ≠ 0) :
    ∀ a ∈ st.appointments, a.provider_id = p → a.status ≠ "cancelled" →
      a.id ≠ i → ¬ (a.start_time < e ∧ a.end_time > s) := by
  intro a ha hp hs hne hov
  have := List.any_eq_false.mp h a ha
  have hi' : (i != 0) = true := by simpa using hi
  simp only [hi', if_true, Bool.and_eq_true, beq_iff_eq, bne_iff_ne, ne_eq,
    decide_eq_true_eq] at this
  tauto

/-- A member of an id-replaced row list is either the replacement or an
original row. -/
theorem mem_map_replace {l : List Appointment} {i : Int} {n b : Appointment}
    (hb : b ∈ l.map (fun x => if x.id == i then n else x)) :
    b = n ∨ b ∈ l := by
  obtain ⟨x, hx, hfx⟩ := List.mem_map.mp hb
  by_cases hxi : x.id == i
  · rw [if_pos hxi] at hfx
    exact Or.inl hfx.symm
  · rw [if_neg hxi] at hfx
    exact Or.inr (hfx ▸ hx)

/-- Replacing an id that occurs nowhere is the identity. -/
theorem map_replace_of_forall_ne {l : List Appointment} {i : Int}
    {n : Appointment} (h : ∀ x ∈ l, x.id ≠ i) :
    l.map (fun x => if x.id == i then n else x) = l := by
  induction l with
  | nil => rfl
  | cons a l ih =>
      simp only [List.map_cons]
      rw [if_neg (by simpa using h a (List.mem_cons_self _ _)),
        ih (fun x hx => h x (List.mem_cons_of_mem _ hx))]

/-- In a list with pairwise-distinct ids, equal ids mean equal rows. -/
theorem eq_of_mem_mem_id {l : List Appointment}
    (hpw : l.Pairwise (fun a b => a.id ≠ b.id)) :
    ∀ a ∈ l, ∀ b ∈ l, a.id = b.id → a = b := by
  induction l with
  | nil => intro a ha; simp at ha
  | cons c l ih =>
      intro a ha b hb heq
      obtain ⟨hc, hl⟩ := List.pairwise_cons.mp hpw
      rcases List.mem_cons.mp ha with ha' | ha'
      · rcases List.mem_cons.mp hb with hb' | hb'
        · rw [ha', hb']
        · exact absurd (by rw [← ha']; exact heq) (hc b hb')
      · rcases List.mem_cons.mp hb with hb' | hb'
        · exact absurd (by rw [← hb']; exact heq.symm) (hc a ha')
        · exact ih hl a ha' b hb' heq

/-- Replacing the row of id `i` by `n` preserves a pairwise property of the
filtered list, provided `n` relates (both ways) to every other kept row. -/
theorem pairwise_filter_replace {R : Appointment → Appointment → Prop}
    {q : Appointment → Bool} {i : Int} {n : Appointment} :
    ∀ {l : List Appointment},
    l.Pairwise (fun a b => a.id ≠ b.id) →
    (∀ a ∈ l, a.id ≠ i → q a = true → q n = true → R a n ∧ R n a) →
    (l.filter q).Pairwise R →
    ((l.map (fun b => if b.id == i then n else b)).filter q).Pairwise R := by
  intro l
  induction l with
  | nil => intro _ _ _; simp
  | cons a l ih =>
      intro hid hR hq
      obtain ⟨ha, hidl⟩ := List.pairwise_cons.mp hid
      have hql : (l.filter q).Pairwise R := by
        rcases hfc : q a with hfa | hfa
        · rwa [List.filter_cons_of_neg (by simp [hfc])] at hq
        · rw [List.filter_cons_of_pos (by simp [hfc])] at hq
          exact (List.pairwise_cons.mp hq).2
      simp only [List.map_cons]
      by_cases hai : a.id = i
      · rw [if_pos (by simpa using hai)]
        have hmap : l.map (fun b => if b.id == i then n else b) = l :=
          map_replace_of_forall_ne (fun x hx => by
            have := ha x hx
            omega)
        rw [hmap]
        rcases hqn : q n with hqn' | hqn'
        · rwa [List.filter_cons_of_neg (by simp [hqn])]
        · rw [List.filter_cons_of_pos (by simp [hqn])]
          refine List.pairwise_cons.mpr ⟨?_, hql⟩
          intro b hb
          have hbmem := List.mem_of_mem_filter hb
          have hbq := List.of_mem_filter hb
          have hbid : b.id ≠ i := by
            have := ha b hbmem
            omega
          exact (hR b (List.mem_cons_of_mem _ hbmem) hbid hbq hqn).2
      · rw [if_neg (by simpa using hai)]
        have IH := ih hidl
          (fun x hx => hR x (List.mem_cons_of_mem _ hx)) hql
        rcases hfa : q a with hfa' | hfa'
        · rwa [List.filter_cons_of_neg (by simp [hfa])]
        · rw [List.filter_cons_of_pos (by simp [hfa])]
          refine List.pairwise_cons.mpr ⟨?_, IH⟩
          intro b hb
          have hbq := List.of_mem_filter hb
          rcases mem_map_replace (List.mem_of_mem_filter hb) with rfl | hbl
          · exact (hR a (List.mem_cons_self _ _) hai hfa hbq).1
          · rw [List.filter_cons_of_pos (by simp [hfa])] at hq
            exact (List.pairwise_cons.mp hq).1 b
              (List.mem_filter.mpr ⟨hbl, hbq⟩)

/-- `setAppointment` preserves store well-formedness when the replacement
keeps the id of a stored row. -/
theorem setAppointment_WF {st : Store} {n : Appointment}
    (hwf : st.WF) (hn : ∃ a ∈ st.appointments, a.id = n.id) :
    (st.setAppointment n).WF := by
  obtain ⟨hpw, hbound, hnext⟩ := hwf
  have hids : ∀ x : Appointment,
      ((fun b => if b.id == n.id then n else b) x).id = x.id := by
    intro x
    show (if x.id == n.id then n else x).id = x.id
    by_cases hxi : x.id == n.id
    · rw [if_pos hxi]
      have : x.id = n.id := by simpa using hxi
      omega
    · rw [if_neg hxi]
  refine ⟨?_, ?_, by simpa using hnext⟩
  · simp only [setAppointment_appointments]
    rw [List.pairwise_map]
    refine hpw.imp_of_mem ?_
    intro a b _ _ hab
    rw [hids a, hids b]
    exact hab
  · intro a hamem
    simp only [setAppointment_appointments] at hamem
    obtain ⟨x, hx, hfx⟩ := List.mem_map.mp hamem
    have : a.id = x.id := by rw [← hfx, hids x]
    have hb := hbound x hx
    simp only [setAppointment_nextId]
    omega

/-- Well-formedness only looks at the appointment rows and the counter. -/
theorem WF_of_eq_parts {st st' : Store}
    (h1 : st'.appointments = st.appointments) (h2 : st'.nextId = st.nextId)
    (hwf : st.WF) : st'.WF := by
  unfold Store.WF
  rw [h1, h2]
  exact hwf

/-- `update_appointment` never succeeds: the source dereferences the missing
`provider_id` field of `AppointmentUpdate` before any mutation. -/
theorem update_never_ok {sess : DbSession} {appointment_id : Int}
    {data : AppointmentUpdate} {actor : Option Int} {now : Int}
    {appt : Appointment} {sess' : DbSession}
    (h : update_appointment sess appointment_id data actor now =
      .ok appt sess') : False := by
  unfold update_appointment at h
  split at h
  · exact OpOutcome.noConfusion h
  · dsimp only at h
    split at h
    · exact OpOutcome.noConfusion h
    · exact OpOutcome.noConfusion h

/-- A successful create keeps the store well-formed and preserves the
no-overlap invariant of every provider. -/
theorem create_preserves {sess : DbSession} {data : AppointmentCreate}
    {actor : Option Int} {now : Int} {appt : Appointment} {sess' : DbSession}
    (h : create_appointment sess data actor now = .ok appt sess')
    (hwf : sess.pending.WF) :
    sess'.pending.WF ∧
    ∀ p, NoOverlapInvariant sess.pending p →
      NoOverlapInvariant sess'.pending p := by
  unfold create_appointment at h
  split at h
  · exact absurd h (by simp)
  · split at h
    · exact absurd h (by simp)
    · rename_i hrange hover
      injection h with happt hsess
      subst happt
      subst hsess
      obtain ⟨hpw, hbound, hnext⟩ := hwf
      have hov : hasOverlap sess.pending data.provider_id data.start_time
          data.end_time none = false := by
        simpa using hover
      constructor
      · refine ⟨?_, ?_, ?_⟩
        · show (sess.pending.appointments ++
            [createdRow sess.pending data actor now]).Pairwise
              (fun a b => a.id ≠ b.id)
          rw [List.pairwise_append]
          refine ⟨hpw, by simp, ?_⟩
          intro a ha b hb
          have hb' : b.id = sess.pending.nextId := by
            simp only [List.mem_singleton] at hb
            rw [hb, createdRow_id]
          have := hbound a ha
          omega
        · show ∀ a ∈ sess.pending.appointments ++
              [createdRow sess.pending data actor now],
            0 < a.id ∧ a.id < sess.pending.nextId + 1
          intro a ha
          rcases List.mem_append.mp ha with ha | ha
          · have := hbound a ha
            omega
          · simp only [List.mem_singleton] at ha
            rw [ha, createdRow_id]
            omega
        · show 0 < sess.pending.nextId + 1
          omega
      · intro p hinv
        unfold NoOverlapInvariant at hinv ⊢
        show ((sess.pending.appointments ++
          [createdRow sess.pending data actor now]).filter
            (activeQuery p)).Pairwise (fun a b => ¬ overlapProp a b)
        rw [List.filter_append, List.pairwise_append]
        refine ⟨hinv,
          List.Pairwise.filter _ (List.pairwise_singleton _ _),
          ?_⟩
        intro a ha b hb
        have haq := List.of_mem_filter ha
        have hamem := List.mem_of_mem_filter ha
        have hbq := List.of_mem_filter hb
        have hbmem := List.mem_of_mem_filter hb
        simp only [List.mem_singleton] at hbmem
        subst hbmem
        have hbp : data.provider_id = p := by
          unfold activeQuery at hbq
          simp only [Bool.and_eq_true, beq_iff_eq] at hbq
          exact hbq.1
        have hap : a.provider_id = p ∧ a.status ≠ "cancelled" := by
          unfold activeQuery at haq
          simp only [Bool.and_eq_true, beq_iff_eq, bne_iff_ne, ne_eq] at haq
          exact haq
        intro hov2
        exact hasOverlap_false_none hov a hamem (by omega) hap.2
          ⟨hov2.1, hov2.2⟩

/-- A successful cancel keeps the store well-formed and preserves the
no-overlap invariant of every provider. -/
theorem cancel_preserves {sess : DbSession} {appointment_id : Int}
    {request : AppointmentCancelRequest} {actor : Option Int} {now : Int}
    {appt : Appointment} {sess' : DbSession}
    (h : cancel_appointment sess appointment_id request actor now =
      .ok appt sess')
    (hwf : sess.pending.WF) :
    sess'.pending.WF ∧
    ∀ p, NoOverlapInvariant sess.pending p →
      NoOverlapInvariant sess'.pending p := by
  unfold cancel_appointment at h
  split at h
  · exact OpOutcome.noConfusion h
  · rename_i appointment hfind
    injection h with happt hsess
    subst happt
    subst hsess
    have hmem : appointment ∈ sess.pending.appointments :=
      List.mem_of_find?_eq_some hfind
    constructor
    · refine WF_of_eq_parts (by simp) (by simp)
        (@setAppointment_WF sess.pending
          { appointment with
            status := "cancelled"
            cancelled_reason := request.reason
            cancelled_at := some now
            updated_at := now } hwf
          ⟨appointment, hmem, rfl⟩)
    · intro p hinv
      unfold NoOverlapInvariant at hinv ⊢
      refine pairwise_filter_replace hwf.1 ?_ hinv
      intro a _ _ _ hqn
      exfalso
      unfold activeQuery at hqn
      simp at hqn

/-- A successful reschedule keeps the store well-formed and preserves the
no-overlap invariant of every provider. -/
theorem reschedule_preserves {sess : DbSession} {appointment_id : Int}
    {data : AppointmentRescheduleRequest} {actor : Option Int} {now : Int}
    {appt : Appointment} {sess' : DbSession}
    (h : reschedule_appointment sess appointment_id data actor now =
      .ok appt sess')
    (hwf : sess.pending.WF) :
    sess'.pending.WF ∧
    ∀ p, NoOverlapInvariant sess.pending p →
      NoOverlapInvariant sess'.pending p := by
  unfold reschedule_appointment at h
  split at h
  · exact OpOutcome.noConfusion h
  · rename_i appointment hfind
    dsimp only at h
    split at h
    · exact OpOutcome.noConfusion h
    · split at h
      · split at h <;> exact OpOutcome.noConfusion h
      · rename_i hrange hover
        injection h with happt hsess
        subst happt
        subst hsess
        have hmem : appointment ∈ sess.pending.appointments :=
          List.mem_of_find?_eq_some hfind
        have hov : hasOverlap sess.pending appointment.provider_id
            data.start_time data.end_time (some appointment.id) = false := by
          simpa using hover
        have hid0 : appointment.id ≠ 0 := by
          have := hwf.2.1 appointment hmem
          omega
        constructor
        · refine WF_of_eq_parts (by simp) (by simp)
            (@setAppointment_WF sess.pending
              { appointment with
                start_time := data.start_time
                end_time := data.end_time
                updated_at := now
                status := "scheduled" } hwf ⟨appointment, hmem, rfl⟩)
        · intro p hinv
          unfold NoOverlapInvariant at hinv ⊢
          refine pairwise_filter_replace hwf.1 ?_ hinv
          intro a hamem haid haq hqn
          have hnp : appointment.provider_id = p := by
            unfold activeQuery at hqn
            simp only [Bool.and_eq_true, beq_iff_eq] at hqn
            exact hqn.1
          have hap : a.provider_id = p ∧ a.status ≠ "cancelled" := by
            unfold activeQuery at haq
            simp only [Bool.and_eq_true, beq_iff_eq, bne_iff_ne, ne_eq] at haq
            exact haq
          have hnool := hasOverlap_false_some hov hid0 a hamem (by omega)
            hap.2 haid
          exact ⟨fun hc => hnool ⟨hc.1, hc.2⟩, fun hc => hnool ⟨hc.2, hc.1⟩⟩

instance (a b : Appointment) : Decidable (overlapProp a b) := by
  unfold overlapProp
  infer_instance

instance (st : Store) (p : Int) : Decidable (NoOverlapInvariant st p) := by
  unfold NoOverlapInvariant
  infer_instance

instance (st : Store) : Decidable st.WF := by
  unfold Store.WF
  infer_instance

/-- Any successful lifecycle operation keeps the store well-formed and
preserves the no-overlap invariant of every provider. -/
theorem applyOp_preserves {sess : DbSession} {op : LifecycleOp}
    {appt : Appointment} {sess' : DbSession}
    (h : applyOp sess op = .ok appt sess') (hwf : sess.pending.WF) :
    sess'.pending.WF ∧
    ∀ p, NoOverlapInvariant sess.pending p →
      NoOverlapInvariant sess'.pending p := by
  cases op with
  | create data actor now =>
      simp only [applyOp] at h
      exact create_preserves h hwf
  | update appointment_id data actor now =>
      simp only [applyOp] at h
      exact (update_never_ok h).elim
  | cancel appointment_id request actor now =>
      simp only [applyOp] at h
      exact cancel_preserves h hwf
  | reschedule appointment_id data actor now =>
      simp only [applyOp] at h
      exact reschedule_preserves h hwf

/-- C1: starting from a well-formed store in which no two non-cancelled
appointments of provider `p` overlap, any sequence of successful lifecycle
operations (create/update/cancel/reschedule — in particular any sequence of
create/update/reschedule) leaves provider `p` free of overlapping
non-cancelled appointments. -/
theorem no_overlap_invariant_preserved (p : Int) (sess sess' : DbSession)
    (ops : List LifecycleOp) (hwf : sess.pending.WF)
    (hinv : NoOverlapInvariant sess.pending p)
    (htrace : SuccessTrace sess ops sess') :
    NoOverlapInvariant sess'.pending p := by
  revert hwf hinv
  induction htrace with
  | nil _ => exact fun _ hinv => hinv
  | cons hstep _ ih =>
      intro hwf hinv
      obtain ⟨hwf2, hpres⟩ := applyOp_preserves hstep hwf
      exact ih hwf2 (hpres p hinv)

/-- A non-conflicting creation request: provider 10, 10:00–10:30. -/
def exampleCreate : AppointmentCreate :=
  { patient_id := 2, provider_id := 10, start_time := 36000,
    end_time := 37800 }

/-- A fresh session over `exampleStore`. -/
def exampleSess : DbSession :=
  { committed := exampleStore, pending := exampleStore }

/-- The session left by creating `exampleCreate` in `exampleSess`. -/
def exampleSessAfterCreate : DbSession :=
  match applyOp exampleSess (.create exampleCreate (some 1) 50) with
  | .ok _ sess => sess
  | .err _ sess => sess

/-- Concrete instance of `no_overlap_invariant_preserved`: a one-step trace
creating a non-overlapping appointment. -/
theorem no_overlap_invariant_preserved_witness :
    NoOverlapInvariant exampleSessAfterCreate.pending 10 :=
  no_overlap_invariant_preserved 10 exampleSess exampleSessAfterCreate
    [.create exampleCreate (some 1) 50] (by decide) (by decide)
    (@SuccessTrace.cons exampleSess _
      (createdRow exampleStore exampleCreate (some 1) 50) _ _ _ rfl
      (SuccessTrace.nil _))

/-! ## Cancelled appointments and the lifecycle operations -/

/-- The status of the appointment an operation returned, if it succeeded. -/
def OpOutcome.resultStatus : OpOutcome → Option String
  | .ok a _ => some a.status
  | .err _ _ => none

/-- A cancelled 09:00–09:30 appointment of provider 10. -/
def cancelledAppt : Appointment :=
  { id := 1, patient_id := 1, provider_id := 10, location := some "Room 1",
    service_type := none, start_time := 32400, end_time := 34200,
    status := "cancelled", notes := none, created_by := none,
    cancelled_reason := some "no show", cancelled_at := some 40000,
    created_at := 0, updated_at := 0 }

/-- A store holding only `cancelledAppt`. -/
def cancelledStore : Store :=
  { appointments := [cancelledAppt], history := [], events := [], nextId := 2 }

/-- A fresh session over `cancelledStore`. -/
def cancelledSess : DbSession :=
  { committed := cancelledStore, pending := cancelledStore }

/-- Counterexample to C2 as stated: rescheduling a cancelled appointment
succeeds and leaves it with status `scheduled`, not `cancelled`. -/
theorem reschedule_reactivates_cancelled_cex :
    (cancelledSess.pending.getAppointment 1).map Appointment.status =
      some "cancelled" ∧
    (reschedule_appointment cancelledSess 1
        { start_time := 36000, end_time := 37800 } none 99).resultStatus =
      some "scheduled" := by
  constructor
  · rfl
  · rfl

/-- No cancelled row of `before` reappears in `after` with a different
status. -/
def preservesCancelled (before after : Store) : Prop :=
  ∀ a ∈ before.appointments, a.status = "cancelled" →
    ∀ a' ∈ after.appointments, a'.id = a.id → a'.status = "cancelled"

/-- C2 (amended): create and cancel never move a cancelled appointment out of
`cancelled`, and update never succeeds at all; but reschedule resets the
status of any appointment it successfully moves — a previously cancelled one
included — to `scheduled`. -/
theorem cancelled_terminal_amended (sess : DbSession)
    (hwf : sess.pending.WF) :
    (∀ data actor now appt sess',
      create_appointment sess data actor now = .ok appt sess' →
      preservesCancelled sess.pending sess'.pending) ∧
    (∀ appointment_id data actor now appt sess',
      update_appointment sess appointment_id data actor now =
        .ok appt sess' → False) ∧
    (∀ appointment_id request actor now appt sess',
      cancel_appointment sess appointment_id request actor now =
        .ok appt sess' →
      preservesCancelled sess.pending sess'.pending) ∧
    (∀ appointment_id data actor now appt sess',
      reschedule_appointment sess appointment_id data actor now =
        .ok appt sess' →
      appt.status = "scheduled" ∧ appt ∈ sess'.pending.appointments) := by
  refine ⟨?_, ?_, ?_, ?_⟩
  · intro data actor now appt sess' h
    unfold create_appointment at h
    split at h
    · exact OpOutcome.noConfusion h
    · split at h
      · exact OpOutcome.noConfusion h
      · injection h with happt hsess
        subst hsess
        intro a ha hacan a' ha' hid
        have ha'' : a' ∈ sess.pending.appointments ++
            [createdRow sess.pending data actor now] := ha'
        rcases List.mem_append.mp ha'' with h1 | h1
        · rw [eq_of_mem_mem_id hwf.1 a' h1 a ha hid]
          exact hacan
        · exfalso
          simp only [List.mem_singleton] at h1
          have hbound := hwf.2.1 a ha
          rw [h1, createdRow_id] at hid
          omega
  · intro appointment_id data actor now appt sess' h
    exact update_never_ok h
  · intro appointment_id request actor now appt sess' h
    unfold cancel_appointment at h
    split at h
    · exact OpOutcome.noConfusion h
    · rename_i appointment hfind
      injection h with happt hsess
      subst hsess
      intro a ha hacan a' ha' hid
      rcases @mem_map_replace sess.pending.appointments _ _ _ ha' with h1 | h1
      · rw [h1]
      · rw [eq_of_mem_mem_id hwf.1 a' h1 a ha hid]
        exact hacan
  · intro appointment_id data actor now appt sess' h
    unfold reschedule_appointment at h
    split at h
    · exact OpOutcome.noConfusion h
    · rename_i appointment hfind
      dsimp only at h
      split at h
      · exact OpOutcome.noConfusion h
      · split at h
        · split at h <;> exact OpOutcome.noConfusion h
        · injection h with happt hsess
          subst happt
          subst hsess
          refine ⟨rfl, ?_⟩
          have hmem : appointment ∈ sess.pending.appointments :=
            List.mem_of_find?_eq_some hfind
          show _ ∈ sess.pending.appointments.map _
          exact List.mem_map.mpr ⟨appointment, hmem, by simp⟩

/-- The row produced by rescheduling `cancelledAppt` to 10:00–10:30. -/
def cancelledRescheduledRow : Appointment :=
  { cancelledAppt with
    start_time := 36000
    end_time := 37800
    updated_at := 99
    status := "scheduled" }

/-- The store after rescheduling `cancelledAppt` to 10:00–10:30 at time 99. -/
def cancelledRescheduledStore : Store :=
  { appointments := [cancelledRescheduledRow]
    history :=
      [{ appointment_id := 1, status := "rescheduled", changed_by := none,
         changed_at := 99,
         note := some "from=32400; to=34200; location=Room 1" }]
    events :=
      [{ actor_id := none, action := "appointment.reschedule",
         resource_id := some "1", timestamp := 99 }]
    nextId := 2 }

/-- The session after that reschedule. -/
def cancelledRescheduledSess : DbSession :=
  { committed := cancelledRescheduledStore,
    pending := cancelledRescheduledStore }

/-- Concrete instance of `cancelled_terminal_amended`: the reschedule clause,
applied to the cancelled fixture. -/
theorem cancelled_terminal_amended_witness :
    cancelledRescheduledRow.status = "scheduled" ∧
    cancelledRescheduledRow ∈ cancelledRescheduledSess.pending.appointments :=
  (cancelled_terminal_amended cancelledSess (by decide)).2.2.2 1
    { start_time := 36000, end_time := 37800 } none 99 cancelledRescheduledRow
    cancelledRescheduledSess (by decide)

/-- C3 evaluated at a failing input: updating an existing appointment with a
valid partial payload raises `AttributeError` — the source dereferences the
`provider_id` field that `AppointmentUpdate` does not declare — so no update
is ever applied. -/
theorem update_raises_attribute_error_eval :
    update_appointment exampleSess 1 { notes := some "note" } (some 1) 10 =
      .err (.attributeError
        "AppointmentUpdate object has no field provider_id") exampleSess := by
  rfl

/-- C10: whenever a lifecycle operation raises NotFound or Conflict — the
reschedule conflict path with its availability lookup included — nothing is
committed: the durable store is exactly as before the call. -/
theorem error_atomicity (sess : DbSession) (op : LifecycleOp) (e : AppError)
    (sess' : DbSession) (h : applyOp sess op = .err e sess')
    (he : e = .notFound ∨ ∃ code msg alts, e = .conflict code msg alts) :
    sess'.committed = sess.committed := by
  clear he
  cases op with
  | create data actor now =>
      simp only [applyOp] at h
      unfold create_appointment at h
      split at h
      · injection h with h1 h2; rw [← h2]
      · split at h
        · injection h with h1 h2; rw [← h2]
        · exact OpOutcome.noConfusion h
  | update appointment_id data actor now =>
      simp only [applyOp] at h
      unfold update_appointment at h
      split at h
      · injection h with h1 h2; rw [← h2]
      · dsimp only at h
        split at h
        · injection h with h1 h2; rw [← h2]
        · injection h with h1 h2; rw [← h2]
  | cancel appointment_id request actor now =>
      simp only [applyOp] at h
      unfold cancel_appointment at h
      split at h
      · injection h with h1 h2; rw [← h2]
      · exact OpOutcome.noConfusion h
  | reschedule appointment_id data actor now =>
      simp only [applyOp] at h
      unfold reschedule_appointment at h
      split at h
      · injection h with h1 h2; rw [← h2]
      · dsimp only at h
        split at h
        · injection h with h1 h2; rw [← h2]
        · split at h
          · split at h
            · injection h with h1 h2; rw [← h2]
            · injection h with h1 h2; rw [← h2]
          · exact OpOutcome.noConfusion h

/-- A second scheduled appointment of provider 10: 10:00–10:30 in Room 1. -/
def exampleAppt2 : Appointment :=
  { id := 2, patient_id := 2, provider_id := 10, location := some "Room 1",
    service_type := none, start_time := 36000, end_time := 37800,
    status := "scheduled", notes := none, created_by := none,
    cancelled_reason := none, cancelled_at := none, created_at := 0,
    updated_at := 0 }

/-- A store holding `exampleAppt` and `exampleAppt2`. -/
def twoApptStore : Store :=
  { appointments := [exampleAppt, exampleAppt2], history := [], events := [],
    nextId := 3 }

/-- A fresh session over `twoApptStore`. -/
def twoApptSess : DbSession :=
  { committed := twoApptStore, pending := twoApptStore }

/-- The conflict raised when rescheduling `exampleAppt` onto
`exampleAppt2`'s slot. -/
def exampleRescheduleConflict : AppError :=
  .conflict "PROVIDER_OVERLAP" "PROVIDER_OVERLAP"
    [{ start_time := 37800, end_time := 39600 },
     { start_time := 39600, end_time := 41400 },
     { start_time := 41400, end_time := 43200 },
     { start_time := 43200, end_time := 45000 },
     { start_time := 45000, end_time := 46800 }]

/-- Concrete instance of `error_atomicity`: a reschedule conflict (running
the availability planner for alternatives) leaves the committed store
untouched. -/
theorem error_atomicity_witness :
    applyOp twoApptSess
        (.reschedule 1 { start_time := 36000, end_time := 37800 } none 5) =
      .err exampleRescheduleConflict twoApptSess ∧
    twoApptSess.committed = twoApptSess.committed :=
  ⟨by decide,
   error_atomicity twoApptSess
     (.reschedule 1 { start_time := 36000, end_time := 37800 } none 5)
     exampleRescheduleConflict twoApptSess (by decide)
     (Or.inr ⟨_, _, _, rfl⟩)⟩

/-- Truncating the accumulation loop of `_collect_alternative_slots` to five
slots is the same as truncating the full concatenation. -/
theorem collectLoop_take (avails : List AppointmentAvailability) :
    ∀ acc, (collectLoop avails acc).take 5 =
      (acc ++ avails.flatMap (fun g => g.slots)).take 5 := by
  induction avails with
  | nil => intro acc; simp [collectLoop]
  | cons e rest ih =>
      intro acc
      simp only [collectLoop, List.flatMap_cons]
      split
      · rename_i hlen
        rw [← List.append_assoc]
        exact (List.take_append_of_le_length (by omega)).symm
      · rw [ih (acc ++ e.slots), List.append_assoc]

/-- C4: a reschedule conflict carries `PROVIDER_OVERLAP` with at most five
alternative slots, computed by the availability planner over the window
`[newStart, min(newStart + 8h, newStart + 24h))` with slot size the requested
duration in (whole, at least one) minutes, for the same provider and stored
location, excluding the appointment being moved; create and update conflicts
always carry an empty alternatives list. -/
theorem reschedule_conflict_alternatives_spec (sess : DbSession) :
    (∀ data actor now code msg alts sess₂,
      create_appointment sess data actor now =
        .err (.conflict code msg alts) sess₂ → alts = []) ∧
    (∀ appointment_id data actor now code msg alts sess₂,
      update_appointment sess appointment_id data actor now =
        .err (.conflict code msg alts) sess₂ → alts = []) ∧
    (∀ appointment_id data actor now appointment,
      sess.pending.getAppointment appointment_id = some appointment →
      data.start_time < data.end_time →
      hasOverlap sess.pending appointment.provider_id data.start_time
        data.end_time (some appointment.id) = true →
      ∃ groups,
        search_availability sess.pending data.start_time
          (min (data.start_time + 8 * 3600) (data.start_time + 86400))
          (some [some appointment.provider_id]) appointment.location
          (max (Int.fdiv (data.end_time - data.start_time) 60) 1)
          (some appointment.id) = .ok groups ∧
        reschedule_appointment sess appointment_id data actor now =
          .err (.conflict "PROVIDER_OVERLAP" "PROVIDER_OVERLAP"
            ((groups.flatMap (fun g => g.slots)).take 5)) sess ∧
        ((groups.flatMap (fun g => g.slots)).take 5).length ≤ 5) := by
  refine ⟨?_, ?_, ?_⟩
  · intro data actor now code msg alts sess₂ h
    unfold create_appointment at h
    split at h
    · injection h with h1 _
      injection h1 with _ _ h3
      exact h3.symm
    · split at h
      · injection h with h1 _
        injection h1 with _ _ h3
        exact h3.symm
      · exact OpOutcome.noConfusion h
  · intro appointment_id data actor now code msg alts sess₂ h
    unfold update_appointment at h
    split at h
    · injection h with h1 _
      exact AppError.noConfusion h1
    · dsimp only at h
      split at h
      · injection h with h1 _
        injection h1 with _ _ h3
        exact h3.symm
      · injection h with h1 _
        exact AppError.noConfusion h1
  · intro appointment_id data actor now appointment hfind hlt hov
    have h1 : data.start_time <
        min (data.start_time + 8 * 3600) (data.start_time + 86400) := by
      omega
    have h2 : 0 < max (Int.fdiv (data.end_time - data.start_time) 60) 1 := by
      omega
    have h3 : (((some [some appointment.provider_id] :
        Option (List (Option Int))).getD []).filterMap id) ≠ [] := by
      simp
    have hsearch := search_availability_eq_ok sess.pending data.start_time
      (min (data.start_time + 8 * 3600) (data.start_time + 86400))
      (some [some appointment.provider_id]) appointment.location
      (max (Int.fdiv (data.end_time - data.start_time) 60) 1)
      (some appointment.id) h1 h2 h3
    have hcol : _collect_alternative_slots sess.pending appointment
        data.start_time data.end_time =
        .ok (((searchGroups sess.pending data.start_time
          (min (data.start_time + 8 * 3600) (data.start_time + 86400))
          [appointment.provider_id] appointment.location
          (max (Int.fdiv (data.end_time - data.start_time) 60) 1)
          (some appointment.id)).flatMap (fun g => g.slots)).take 5) := by
      unfold _collect_alternative_slots
      dsimp only
      rw [hsearch]
      dsimp only
      rw [collectLoop_take, List.nil_append]
      rfl
    refine ⟨searchGroups sess.pending data.start_time
      (min (data.start_time + 8 * 3600) (data.start_time + 86400))
      [appointment.provider_id] appointment.location
      (max (Int.fdiv (data.end_time - data.start_time) 60) 1)
      (some appointment.id), hsearch, ?_, List.length_take_le _ _⟩
    unfold reschedule_appointment
    rw [hfind]
    dsimp only
    rw [if_neg (not_le.mpr hlt), if_pos hov, hcol]

/-- The alternative slots attached to `exampleRescheduleConflict`. -/
def exampleConflictAlternatives : List AvailabilitySlot :=
  [{ start_time := 37800, end_time := 39600 },
   { start_time := 39600, end_time := 41400 },
   { start_time := 41400, end_time := 43200 },
   { start_time := 43200, end_time := 45000 },
   { start_time := 45000, end_time := 46800 }]

/-- The availability groups the planner computes for that conflict. -/
def exampleConflictGroups : List AppointmentAvailability :=
  [{ provider_id := 10
     location := some "Room 1"
     slots :=
      [{ start_time := 37800, end_time := 39600 },
       { start_time := 39600, end_time := 41400 },
       { start_time := 41400, end_time := 43200 },
       { start_time := 43200, end_time := 45000 },
       { start_time := 45000, end_time := 46800 },
       { start_time := 46800, end_time := 48600 },
       { start_time := 48600, end_time := 50400 },
       { start_time := 50400, end_time := 52200 },
       { start_time := 52200, end_time := 54000 },
       { start_time := 54000, end_time := 55800 },
       { start_time := 55800, end_time := 57600 },
       { start_time := 57600, end_time := 59400 },
       { start_time := 59400, end_time := 61200 },
       { start_time := 61200, end_time := 63000 },
       { start_time := 63000, end_time := 64800 }] }]

/-- Concrete instance of `reschedule_conflict_alternatives_spec`: rescheduling
`exampleAppt` onto `exampleAppt2`'s slot. -/
theorem reschedule_conflict_alternatives_spec_witness :
    reschedule_appointment twoApptSess 1
        { start_time := 36000, end_time := 37800 } none 5 =
      .err (.conflict "PROVIDER_OVERLAP" "PROVIDER_OVERLAP"
        exampleConflictAlternatives) twoApptSess ∧
    exampleConflictAlternatives.length ≤ 5 := by
  obtain ⟨groups, hsearch, hresched, hlen⟩ :=
    (reschedule_conflict_alternatives_spec twoApptSess).2.2 1
      { start_time := 36000, end_time := 37800 } none 5 exampleAppt rfl
      (by decide) (by decide)
  have h2 : search_availability twoApptSess.pending 36000
      (min (36000 + 8 * 3600) (36000 + 86400)) (some [some 10])
      (some "Room 1") (max (Int.fdiv (37800 - 36000) 60) 1) (some 1) =
      .ok exampleConflictGroups := by rfl
  have hgroups : groups = exampleConflictGroups :=
    Except.ok.inj (hsearch.symm.trans h2)
  subst hgroups
  have halts : (exampleConflictGroups.flatMap (fun g => g.slots)).take 5 =
      exampleConflictAlternatives := by decide
  rw [halts] at hresched hlen
  exact ⟨hresched, hlen⟩

/-- C5: a successful reschedule sets the new interval, resets status to
`scheduled`, stores the updated row, and appends exactly one `rescheduled`
history entry whose note records the previous start/end (and optional
location/reason parts) in the semicolon-joined format. -/
theorem reschedule_success_spec (sess : DbSession) (appointment_id : Int)
    (data : AppointmentRescheduleRequest) (actor : Option Int) (now : Int)
    (appt : Appointment) (sess2 : DbSession)
    (h : reschedule_appointment sess appointment_id data actor now =
      .ok appt sess2) :
    ∃ previous,
      sess.pending.getAppointment appointment_id = some previous ∧
      appt.start_time = data.start_time ∧ appt.end_time = data.end_time ∧
      appt.status = "scheduled" ∧ appt.id = previous.id ∧
      appt ∈ sess2.pending.appointments ∧
      sess2.pending.history = sess.pending.history ++
        [{ appointment_id := previous.id
           status := "rescheduled"
           changed_by := actor
           changed_at := now
           note := some (rescheduleNote previous.start_time previous.end_time
             previous.location data.reason) }] := by
  unfold reschedule_appointment at h
  split at h
  · exact OpOutcome.noConfusion h
  · rename_i appointment hfind
    dsimp only at h
    split at h
    · exact OpOutcome.noConfusion h
    · split at h
      · split at h <;> exact OpOutcome.noConfusion h
      · injection h with happt hsess
        subst happt
        subst hsess
        refine ⟨appointment, hfind, rfl, rfl, rfl, rfl, ?_, ?_⟩
        · have hmem : appointment ∈ sess.pending.appointments :=
            List.mem_of_find?_eq_some hfind
          show _ ∈ sess.pending.appointments.map _
          exact List.mem_map.mpr ⟨appointment, hmem, by simp⟩
        · rfl

/-- The row produced by rescheduling `exampleAppt` to 10:00–10:30. -/
def exampleRescheduledRow : Appointment :=
  { exampleAppt with
    start_time := 36000
    end_time := 37800
    updated_at := 77
    status := "scheduled" }

/-- The store after that reschedule. -/
def exampleRescheduledStore : Store :=
  { appointments := [exampleRescheduledRow]
    history :=
      [{ appointment_id := 1, status := "rescheduled", changed_by := some 9,
         changed_at := 77,
         note := some "from=32400; to=34200; location=Room 1" }]
    events :=
      [{ actor_id := some 9, action := "appointment.reschedule",
         resource_id := some "1", timestamp := 77 }]
    nextId := 2 }

/-- The session after that reschedule. -/
def exampleRescheduledSess : DbSession :=
  { committed := exampleRescheduledStore, pending := exampleRescheduledStore }

/-- Concrete instance of `reschedule_success_spec`: moving `exampleAppt` into
a free slot appends the expected `rescheduled` history entry. -/
theorem reschedule_success_spec_witness :
    exampleRescheduledSess.pending.history = exampleSess.pending.history ++
      [{ appointment_id := exampleAppt.id
         status := "rescheduled"
         changed_by := some 9
         changed_at := 77
         note := some (rescheduleNote exampleAppt.start_time
           exampleAppt.end_time exampleAppt.location none) }] := by
  obtain ⟨previous, hget, h1, h2, h3, h4, h5, h6⟩ :=
    reschedule_success_spec exampleSess 1
      { start_time := 36000, end_time := 37800 } (some 9) 77
      exampleRescheduledRow exampleRescheduledSess rfl
  have hsome : some exampleAppt = some previous :=
    (show exampleSess.pending.getAppointment 1 = some exampleAppt from
      rfl).symm.trans hget
  have hprev : previous = exampleAppt := (Option.some.inj hsome).symm
  rw [hprev] at h6
  exact h6

end Potilastieto
